import Mathlib

/-!
Shallow embedding of `packages/btc-ledger-wallet/src/wallet.ts`
(class `BitcoinLedgerProvider`).

Modelling conventions:
* machine numbers are `Int`/`Nat`; JavaScript's `NaN` is made explicit by the
  type `JsNum` (`Number(x)` on a non-numeric value yields `.nan`);
* dynamically typed slots (the `change` field of a selection result can hold
  `undefined`, a number, or an output object) are modelled by the union type
  `JsVal`;
* external collaborators (the ledger device, the blockchain provider, the
  `coinselect` library, `bitcoinjs-lib` script encoding) are parameters of an
  `Env` record or free constructors; the functions of the wallet class itself
  are translated from the source;
* `async`/`await` sequencing is pure data flow; a `throw` becomes
  `Except.error` carrying the thrown message string.
-/

/-- A JavaScript number that may be `NaN`. -/
inductive JsNum where
  | nan
  | int (n : Int)
deriving DecidableEq, Repr

/-- JavaScript truthiness of a number: `NaN` and `0` are falsy. -/
def JsNum.truthy : JsNum → Bool
  | .nan => false
  | .int n => n ≠ 0

/-- `BigNumber(x).minus(y).toNumber()`: subtraction propagating `NaN`. -/
def JsNum.sub : JsNum → Int → JsNum
  | .nan, _ => .nan
  | .int n, m => .int (n - m)

/-- A requested payment output `{ to, value }` as passed to `buildTransaction`
(the source field `to` is spelled `dest` here, `to` being reserved). -/
structure Payment where
  dest : String
  value : Int
deriving DecidableEq, Repr

/-- The `data` argument of `buildTransaction` (only the field the wallet reads). -/
structure MetaData where
  eventName : String
deriving DecidableEq, Repr

/-- A derived wallet address (the `Address` objects produced by
`getLedgerAddresses`); `Address.equals` compares by address string. -/
structure Address where
  addr : String
  derivationPath : String
  index : Nat
  change : Bool
deriving DecidableEq, Repr

/-- An unspent output as returned by `provider.getUnspentTransactions`. -/
structure UTXO where
  txid : String
  vout : Nat
  amount : Int
  address : String
deriving DecidableEq, Repr

/-- A UTXO after the `updatedUtxos` mapping in `getInputsForAmount`:
`value = amount * 1e8` and the owning address's derivation path attached. -/
structure SelUTXO where
  txid : String
  vout : Nat
  amount : Int
  address : String
  value : Int
  derivationPath : String
deriving DecidableEq, Repr

/-- An output record in `coinselect`'s result: the synthetic request carries
`id = "main"`; a change output produced by the library carries no id. -/
structure CSOutput where
  id : Option String
  value : JsNum
deriving DecidableEq, Repr

/-- The record returned by the external `coinselect` collaborator:
`inputs`/`outputs` are `undefined` when selection failed, `fee` is always set. -/
structure CSResult where
  inputs : Option (List SelUTXO)
  outputs : Option (List CSOutput)
  fee : Int
deriving DecidableEq, Repr

/-- A dynamically typed JavaScript value as stored in the `change` field of
`getInputs`' result: `undefined`, a bare number, or an output object. -/
inductive JsVal where
  | undef
  | num (n : JsNum)
  | obj (o : CSOutput)
deriving DecidableEq, Repr

/-- JavaScript truthiness of a `JsVal` (`undefined` is falsy, an object is
truthy, a number is truthy unless `0` or `NaN`). -/
def JsVal.truthy : JsVal → Bool
  | .undef => false
  | .num n => n.truthy
  | .obj _ => true

/-- The record returned by `getInputs`: `{ inputs, change, fee, amount }` on
success, `{ fee, amount }` (inputs and change `undefined`) on failure. -/
structure InputsResult where
  inputs : Option (List SelUTXO)
  change : JsVal
  fee : Int
  amount : JsNum
deriving DecidableEq, Repr

/-! ### Hex strings and `getAmountBuffer`

`BigNumber(n).toString(16)` is modelled as the list of base-16 digit values,
most significant first (`toString16`); `Buffer.from(hex, 'hex')` consumes the
digits in pairs (`hexPairsToBytes`), dropping a trailing incomplete pair. -/

/-- Fuel-driven base-16 digit extraction, least significant digit first. -/
def hexLEAux : Nat → Nat → List Nat
  | 0, _ => []
  | _ + 1, 0 => []
  | fuel + 1, n + 1 => (n + 1) % 16 :: hexLEAux fuel ((n + 1) / 16)

/-- The base-16 digits of `n`, least significant first (`[]` for `0`). -/
def hexDigitsLE (n : Nat) : List Nat := hexLEAux n n

/-- `BigNumber(n).toString(16)` for a natural `n`: digit values, most
significant first; `0` renders as the single digit `0`. -/
def toString16 (n : Nat) : List Nat :=
  if n = 0 then [0] else (hexDigitsLE n).reverse

/-- `padHexStart(hex, length)` from the source: `len = length || hex.length`,
then `len += len % 2`, then `hex.padStart(len, '0')`. -/
def padHexStart (hex : List Nat) (length : Nat) : List Nat :=
  let len0 := if length = 0 then hex.length else length
  let len := len0 + len0 % 2
  List.replicate (len - hex.length) 0 ++ hex

/-- `Buffer.from(hexDigits, 'hex')`: consecutive digit pairs become bytes; a
trailing lone digit is dropped, as Node's hex decoder stops there. -/
def hexPairsToBytes : List Nat → List Nat
  | d1 :: d2 :: rest => (16 * d1 + d2) :: hexPairsToBytes rest
  | _ => []

/-- `getAmountBuffer(amount)` from the source: round (integers are fixed),
render in hex, pad to 16 digits, parse as bytes, reverse.  A negative amount
renders with a leading minus sign, which Node's hex decoder rejects at once,
yielding an empty buffer. -/
def getAmountBuffer (amount : Int) : List Nat :=
  if amount < 0 then []
  else (hexPairsToBytes (padHexStart (toString16 amount.toNat) 16)).reverse

/-- `getAmountBuffer` applied to a dynamically typed number: `Math.round(NaN)`
is `NaN`, whose hex rendering `NaN` the hex decoder rejects, so the buffer is
empty. -/
def getAmountBufferJs : JsNum → List Nat
  | .nan => []
  | .int n => getAmountBuffer n

/-! ### Address derivation (`getLedgerAddresses`, `getAddresses`,
`getAddressList`)

The composite of the ledger-reported account key and bip32 child derivation is
abstracted as a function `addrOf : Bool → Nat → String` giving the address
string of each (branch, index) pair; the derivation-path bookkeeping is
translated literally. -/

/-- One `Address` object as pushed by the loop in `getLedgerAddresses`. -/
def mkLedgerAddress (addrOf : Bool → Nat → String) (basePath : String)
    (change : Bool) (i : Nat) : Address :=
  { addr := addrOf change i
    derivationPath := basePath ++ (if change then "1" else "0") ++ "/" ++ toString i
    index := i
    change := change }

/-- `getLedgerAddresses(startingIndex, numAddresses, change)`. -/
def getLedgerAddresses (addrOf : Bool → Nat → String) (basePath : String)
    (startingIndex numAddresses : Nat) (change : Bool) : List Address :=
  (List.range' startingIndex numAddresses).map (mkLedgerAddress addrOf basePath change)

/-- `getAddresses` simply forwards to `getLedgerAddresses`. -/
def getAddresses (addrOf : Bool → Nat → String) (basePath : String)
    (startingIndex numAddresses : Nat) (change : Bool) : List Address :=
  getLedgerAddresses addrOf basePath startingIndex numAddresses change

/-- `getAddressList(numAddressPerCall)`: the change batch `[0, n)` first, then
the non-change batch `[0, n)`. -/
def getAddressList (addrOf : Bool → Nat → String) (basePath : String)
    (numAddressPerCall : Nat) : List Address :=
  getAddresses addrOf basePath 0 numAddressPerCall true
    ++ getAddresses addrOf basePath 0 numAddressPerCall false

/-! ### Used/unused address classification (`getUsedUnusedAddresses`) -/

/-- The mutable state of the classification loop: the accumulating
`usedAddresses` array and the `unusedAddress` record's two slots. -/
structure UUState where
  usedAddresses : List Address
  change : Option Address
  nonChange : Option Address
deriving DecidableEq, Repr

/-- Read a branch's slot of the `unusedAddress` record. -/
def UUState.slot (st : UUState) (b : Bool) : Option Address :=
  if b then st.change else st.nonChange

/-- Whether `utxos.find(utxo => address.equals(utxo.address))` is truthy. -/
def isUsedBy (utxos : List UTXO) (a : Address) : Bool :=
  (utxos.find? (fun u => a.addr = u.address)).isSome

/-- One iteration of the `for (const address of addressList)` loop: a used
address is pushed and unconditionally nulls its branch's slot; an unused one
is recorded only when the slot is empty. -/
def classifyStep (utxos : List UTXO) (st : UUState) (a : Address) : UUState :=
  if isUsedBy utxos a then
    if a.change then
      { st with usedAddresses := st.usedAddresses ++ [a], change := none }
    else
      { st with usedAddresses := st.usedAddresses ++ [a], nonChange := none }
  else
    if a.change then
      { st with change := if st.change.isNone then some a else st.change }
    else
      { st with nonChange := if st.nonChange.isNone then some a else st.nonChange }

/-- The result of `getUsedUnusedAddresses` (`unusedAddress` flattened into its
two slots; `none` models a slot left `null`/`undefined`). -/
structure UUResult where
  usedAddresses : List Address
  unusedChange : Option Address
  unusedNonChange : Option Address
deriving DecidableEq, Repr

/-- Read a branch's slot of the final `unusedAddress` record. -/
def UUResult.slot (r : UUResult) (b : Bool) : Option Address :=
  if b then r.unusedChange else r.unusedNonChange

/-- The loop plus the two `addressList[0]` fallbacks of
`getUsedUnusedAddresses`, as a function of the materialized address list and
the provider's UTXO response. -/
def classifyUsedUnused (addressList : List Address) (utxos : List UTXO) : UUResult :=
  let st := addressList.foldl (classifyStep utxos) ⟨[], none, none⟩
  { usedAddresses := st.usedAddresses
    unusedChange := match st.change with
      | some a => some a
      | none => addressList.get? 0
    unusedNonChange := match st.nonChange with
      | some a => some a
      | none => addressList.get? 0 }

/-- `getUsedUnusedAddresses(numAddressPerCall)`: materialize the address list,
fetch the UTXOs for it, classify. -/
def getUsedUnusedAddresses (addrOf : Bool → Nat → String) (basePath : String)
    (getUnspent : List Address → List UTXO) (numAddressPerCall : Nat) : UUResult :=
  let addressList := getAddressList addrOf basePath numAddressPerCall
  classifyUsedUnused addressList (getUnspent addressList)

/-- `getUnusedAddress(change, numAddressPerCall)` projects one slot. -/
def getUnusedAddress (addrOf : Bool → Nat → String) (basePath : String)
    (getUnspent : List Address → List UTXO) (change : Bool)
    (numAddressPerCall : Nat) : Option Address :=
  (getUsedUnusedAddresses addrOf basePath getUnspent numAddressPerCall).slot change

/-! ### `getWalletAddress` -/

/-- The three possible outcomes of `getWalletAddress`: a matching address, the
thrown `ADDRESS_MISSING_IN_LEDGER`, or fuel exhaustion of the model (never
reached with the fuel supplied below when `addressesPerCall > 0`). -/
inductive GWResult where
  | found (a : Address)
  | missing
  | outOfFuel
deriving DecidableEq, Repr

/-- The `while (index < maxAddresses)` loop of `getWalletAddress`: scan a
window, return a match, otherwise advance; when the index lands exactly on
`maxAddresses` on the non-change branch, restart at `0` on the change branch. -/
def gwAux (addrOf : Bool → Nat → String) (basePath : String) (target : String)
    (maxAddresses addressesPerCall : Nat) :
    Nat → Nat → Bool → GWResult
  | 0, _, _ => .outOfFuel
  | fuel + 1, index, change =>
    if index < maxAddresses then
      let addresses := getAddresses addrOf basePath index addressesPerCall change
      match addresses.find? (fun a => a.addr = target) with
      | some a => .found a
      | none =>
        let index' := index + addressesPerCall
        if index' = maxAddresses ∧ change = false then
          gwAux addrOf basePath target maxAddresses addressesPerCall fuel 0 true
        else
          gwAux addrOf basePath target maxAddresses addressesPerCall fuel index' change
    else
      .missing

/-- `getWalletAddress(address, maxAddresses = 1000, addressesPerCall = 50)`.
`2 * maxAddresses + 2` units of fuel cover every iteration the loop can make
when `addressesPerCall > 0`. -/
def getWalletAddress (addrOf : Bool → Nat → String) (basePath : String)
    (target : String) (maxAddresses addressesPerCall : Nat) : GWResult :=
  gwAux addrOf basePath target maxAddresses addressesPerCall
    (2 * maxAddresses + 2) 0 false

/-! ### Constructor and `getAddressFromPublicKey` -/

/-- The `ADDRESS_PREFIX` table: `{ legacy: 44, 'p2sh-segwit': 49, bech32: 84 }`;
any other key reads as `undefined`. -/
def ADDRESS_PREFIX (addressType : String) : Option Nat :=
  if addressType = "legacy" then some 44
  else if addressType = "p2sh-segwit" then some 49
  else if addressType = "bech32" then some 84
  else none

/-- Template-literal interpolation of a possibly `undefined` number: JavaScript
renders `undefined` as the string `undefined`. -/
def interpolate : Option Nat → String
  | some n => toString n
  | none => "undefined"

/-- The derivation-path prefix computed in the constructor:
`` `${ADDRESS_PREFIX[addressType]}'/${network.coinType}'/0'/` ``. -/
def constructorDerivationPath (addressType : String) (coinType : Nat) : String :=
  interpolate (ADDRESS_PREFIX addressType) ++ "'/" ++ toString coinType ++ "'/0'/"

/-- The wallet state set up by the constructor (provider, ledger transport and
the empty key cache are external or irrelevant to the claims). -/
structure WalletConfig where
  addressType : String
  derivationPath : String
deriving DecidableEq, Repr

/-- The constructor body: it performs no validation of `addressType` and never
throws; it is a total function into `WalletConfig`. -/
def mkWallet (addressType : String) (coinType : Nat) : WalletConfig :=
  { addressType := addressType
    derivationPath := constructorDerivationPath addressType coinType }

/-- The address produced by the external `bitcoinjs-lib` payment encoders,
kept symbolic: each encoder is a free constructor applied to the public key. -/
inductive PaymentAddr where
  | p2pkh (pubkey : String)
  | p2shP2wpkh (pubkey : String)
  | p2wpkh (pubkey : String)
deriving DecidableEq, Repr

/-- `getAddressFromPublicKey(publicKey)`: a three-way `if`/`else if` chain with
no final `else`, so an unrecognized `addressType` falls through and the
function returns `undefined` (`none`). -/
def getAddressFromPublicKey (addressType : String) (publicKey : String) :
    Option PaymentAddr :=
  if addressType = "legacy" then some (.p2pkh publicKey)
  else if addressType = "p2sh-segwit" then some (.p2shP2wpkh publicKey)
  else if addressType = "bech32" then some (.p2wpkh publicKey)
  else none

/-! ### Coin selection (`getInputs`, `getInputsForAmount`)

`coinselect` itself lives in `node_modules`, outside this repository; it is a
parameter `sel` of the functions below.  The dynamic coercions at the call
boundary (`Number(amount)`, `new BigNumber(amount)`) are made explicit. -/

/-- The value `_buildTransaction` hands to `getInputsForAmount` is the raw
`outputs` array, so the `amount` parameter of `getInputsForAmount` is
dynamically either a number or an array of payment records. -/
inductive JsAmount where
  | num (n : JsNum)
  | arr (ps : List Payment)
deriving DecidableEq, Repr

/-- JavaScript `Number(x)` for the values that can reach the `amount`
parameter: a number is itself; an array coerces through its string rendering,
so `[]` is `0`, and any array containing an object renders as
`[object Object] ...` and coerces to `NaN`. -/
def jsToNumber : JsAmount → JsNum
  | .num n => n
  | .arr [] => .int 0
  | .arr (_ :: _) => .nan

/-- `new BigNumber(x)` for the same values: `BigNumber` stringifies a
non-number argument, and neither the empty string nor `[object Object] ...`
parses, so every array coerces to `NaN`. -/
def bigNumberOf : JsAmount → JsNum
  | .num n => n
  | .arr _ => .nan

/-- The fee-rate defaulting step `if (!feePerByte) feePerByte = await
this.provider.getFeePerByte()`: an absent or zero caller rate falls back to
the provider's rate. -/
def effectiveFeeRate (feePerByte : Option Int) (providerRate : Int) : Int :=
  match feePerByte with
  | none => providerRate
  | some f => if f = 0 then providerRate else f

/-- `getInputs(utxos, amount, feePerByte)`: call `coinselect` with the single
synthetic output `{ id: 'main', value: amount }`; on success the first output
whose id is not `'main'` is kept as `change`.  A `coinselect` output object
has no `length` property, so the source's `if (change.length)` unwrapping
branch never fires and `change` stays the output object itself. -/
def getInputs (sel : List SelUTXO → List CSOutput → Int → CSResult)
    (utxos : List SelUTXO) (amount : JsNum) (feePerByte : Int) : InputsResult :=
  let r := sel utxos [{ id := some "main", value := amount }] feePerByte
  match r.inputs, r.outputs with
  | some ins, some outs =>
    let change : JsVal :=
      match outs.find? (fun o => o.id ≠ some "main") with
      | some o => .obj o
      | none => .undef
    { inputs := some ins, change := change, fee := r.fee, amount := amount }
  | _, _ => { inputs := none, change := .undef, fee := r.fee, amount := amount }

/-- The `updatedUtxos` mapping of `getInputsForAmount`: attach
`value = amount * 1e8` and the derivation path of the owning address; when a
UTXO's address is not in the scanned list, `addr.derivationPath` dereferences
`undefined` and the call throws a `TypeError`. -/
def updatedUtxos (addrList : List Address) (utxos : List UTXO) :
    Except String (List SelUTXO) :=
  utxos.mapM (fun u =>
    match addrList.find? (fun a => a.addr = u.address) with
    | some a => .ok { txid := u.txid, vout := u.vout, amount := u.amount,
                      address := u.address, value := u.amount * 100000000,
                      derivationPath := a.derivationPath }
    | none => .error "TypeError")

/-- The external collaborators consumed by the wallet, bundled. -/
structure Env where
  getUnspent : List Address → List UTXO
  providerFeePerByte : Int
  rawTx : String → String
  sel : List SelUTXO → List CSOutput → Int → CSResult
  addrOf : Bool → Nat → String
  basePath : String
  addressType : String

/-- `getInputsForAmount(amount, feePerByte?, numAddressPerCall = 25)`: scan,
fetch and decorate UTXOs, default the fee rate, run selection against
`Number(amount)`, and on failure retry exactly once against
`BigNumber(amount).minus(result.fee)`; a second failure throws
`NOT_ENOUGHT_BALANCE`. -/
def getInputsForAmount (env : Env) (amount : JsAmount) (feePerByte : Option Int)
    (numAddressPerCall : Nat) : Except String InputsResult :=
  let addrList := getAddressList env.addrOf env.basePath numAddressPerCall
  let utxos := env.getUnspent addrList
  match updatedUtxos addrList utxos with
  | .error e => .error e
  | .ok us =>
    let rate := effectiveFeeRate feePerByte env.providerFeePerByte
    let result := getInputs env.sel us (jsToNumber amount) rate
    if result.inputs.isSome then
      .ok result
    else
      let fixedAmount := (bigNumberOf amount).sub result.fee
      let fixedResult := getInputs env.sel us fixedAmount rate
      if fixedResult.inputs.isSome then
        .ok fixedResult
      else
        .error "NOT_ENOUGHT_BALANCE"

/-! ### Transaction assembly (`_buildTransaction`) -/

/-- The argument `bitcoinjs`'s `address.toOutputScript` receives: the payment
outputs pass a string, the change output passes the whole `Address` object. -/
inductive AddrLike where
  | str (s : String)
  | addrObj (a : Address)
deriving DecidableEq, Repr

/-- An output script, with the two external script builders kept symbolic:
`payments.embed` over the metadata payload and `address.toOutputScript`. -/
inductive Script where
  | embedScript (payload : String)
  | outScript (dest : AddrLike)
deriving DecidableEq, Repr

/-- A ledger output record `{ amount: Buffer, script }`. -/
structure LOut where
  amount : List Nat
  script : Script
deriving DecidableEq, Repr

/-- The device representation of a prior transaction,
`ledger.splitTransaction(rawHex, true)` kept symbolic over the raw hex. -/
structure LedgerTx where
  hex : String
deriving DecidableEq, Repr

/-- The value handed to `ledger.serializeTransactionOutputs`: the source passes
`{ outputs }` — the raw request list — never the assembled ledger outputs. -/
inductive SerializeArg where
  | paymentsArg (ps : List Payment)
  | ledgerArg (os : List LOut)
deriving DecidableEq, Repr

/-- The argument list of the final `ledger.createPaymentTransactionNew` call
(the two `undefined` positional arguments are omitted). -/
structure SignerCall where
  inputs : List (LedgerTx × Nat)
  paths : List String
  changePath : String
  outputsHex : SerializeArg
  segwitSupport : Bool
  additionals : Option (List String)
deriving DecidableEq, Repr

/-- Truthiness of the `amountWithoutFee` variable, which holds either a number
or `null` after being consumed. -/
def jsOptTruthy : Option JsNum → Bool
  | none => false
  | some x => x.truthy

/-- The callback of `outputs.map(...)` inside `_buildTransaction`, with the
closed-over mutable `amountWithoutFee` threaded through: the first payment
written while `amountWithoutFee` is truthy uses it and nulls it; every other
payment uses its own nominal value. -/
def paymentOutputsAux : Option JsNum → List Payment → List LOut
  | _, [] => []
  | some x, o :: rest =>
    if x.truthy then
      { amount := getAmountBufferJs x, script := .outScript (.str o.dest) }
        :: paymentOutputsAux none rest
    else
      { amount := getAmountBuffer o.value, script := .outScript (.str o.dest) }
        :: paymentOutputsAux (some x) rest
  | none, o :: rest =>
    { amount := getAmountBuffer o.value, script := .outScript (.str o.dest) }
      :: paymentOutputsAux none rest

/-- The `ledgerOutputs` array as the source actually leaves it (lines 343-383):
the optional metadata output is pushed; `ledgerOutputs.concat(outputs.map(...))`
builds the payment outputs but its return value is discarded, so they never
join the array; the change output is pushed when `change` is truthy.  When the
`change` slot holds a bare number, `change.value` reads `undefined`, whose
amount buffer is empty. -/
def assembleLedgerOutputs (outputs : List Payment) (data : Option MetaData)
    (amount : JsNum) (change : JsVal) (unusedAddress : Address) : List LOut :=
  let ledgerOutputs : List LOut :=
    match data with
    | some d => [{ amount := getAmountBuffer 0, script := .embedScript ("J_" ++ d.eventName) }]
    | none => []
  let _discarded := paymentOutputsAux (some amount) outputs
  match change with
  | .obj o =>
    ledgerOutputs ++ [{ amount := getAmountBufferJs o.value,
                        script := .outScript (.addrObj unusedAddress) }]
  | .num v =>
    if v.truthy then
      ledgerOutputs ++ [{ amount := [], script := .outScript (.addrObj unusedAddress) }]
    else ledgerOutputs
  | .undef => ledgerOutputs

/-- `getLedgerInputs(utxos)`: fetch each prior raw transaction and split it,
paired with the spent output index. -/
def getLedgerInputs (env : Env) (utxos : List SelUTXO) : List (LedgerTx × Nat) :=
  utxos.map (fun u => ({ hex := env.rawTx u.txid }, u.vout))

/-- `_buildTransaction(outputs, data, feePerByte?)`.  Line 337 calls
`getInputsForAmount(outputs)`: the raw payment array is passed where an amount
is expected, and the `feePerByte` parameter is not forwarded.  The assembled
`ledgerOutputs` array is never consumed afterwards; the signer receives a
serialization of the raw `outputs` list. -/
def _buildTransaction (env : Env) (outputs : List Payment) (data : Option MetaData)
    (feePerByte : Option Int) : Except String SignerCall :=
  match getUnusedAddress env.addrOf env.basePath env.getUnspent true 25 with
  | none => .error "TypeError"
  | some unusedAddress =>
    match getInputsForAmount env (.arr outputs) none 25 with
    | .error e => .error e
    | .ok r =>
      match r.inputs with
      | none => .error "TypeError"
      | some inputs =>
        let amountWithoutFee := r.amount
        let ledgerInputs := getLedgerInputs env inputs
        let paths := inputs.map (fun u => u.derivationPath)
        let _ledgerOutputs :=
          assembleLedgerOutputs outputs data amountWithoutFee r.change unusedAddress
        let serializedOutputs := SerializeArg.paymentsArg outputs
        .ok { inputs := ledgerInputs
              paths := paths
              changePath := unusedAddress.derivationPath
              outputsHex := serializedOutputs
              segwitSupport := env.addressType == "bech32" || env.addressType == "p2sh-segwit"
              additionals := if env.addressType = "bech32" then some ["bech32"] else none }

/-- `buildTransaction(to, value, data, feePerByte?)` wraps the single payment
into a one-element list. -/
def buildTransaction (env : Env) (toAddr : String) (value : Int)
    (data : Option MetaData) (feePerByte : Option Int) : Except String SignerCall :=
  _buildTransaction env [{ dest := toAddr, value := value }] data feePerByte

/-! ### Derived notions used by the verification -/

/-- The numeric sum of the requested payment amounts. -/
def sumPayments (ps : List Payment) : Int := (ps.map (fun p => p.value)).sum

/-- The summed `value` of a selected input set. -/
def sumSel (l : List SelUTXO) : Int := (l.map (fun u => u.value)).sum

/-- The summed integer value of a list of selector outputs (`NaN` as `0`;
only integer-valued outputs occur in the statements below). -/
def sumOutsInt (l : List CSOutput) : Int :=
  (l.map (fun o => match o.value with | .nan => 0 | .int v => v)).sum

/-- The per-branch effect of the classification loop on that branch's
`unusedAddress` slot. -/
def candStep (p : Address → Bool) (c : Option Address) (a : Address) : Option Address :=
  if p a then none else if c.isNone then some a else c

/-- Closed form of the final slot value: the first address, in list order,
satisfying `!p` that comes after the last address satisfying `p` (the list's
head when nothing satisfies `p`; `none` when a `p`-address is last). -/
def specCandidate (p : Address → Bool) : List Address → Option Address
  | [] => none
  | a :: rest =>
    if rest.any p then specCandidate p rest
    else if p a then rest.head? else some a

theorem specCandidate_of_not_any (p : Address → Bool) :
    ∀ l : List Address, l.any p = false → specCandidate p l = l.head? := by
  intro l h
  cases l with
  | nil => rfl
  | cons a rest =>
    simp only [List.any_cons, Bool.or_eq_false_iff] at h
    simp [specCandidate, h.1, h.2]

theorem specCandidate_unused (p : Address → Bool) :
    ∀ l : List Address, ∀ a : Address, specCandidate p l = some a → p a = false := by
  intro l
  induction l with
  | nil => intro a h; simp [specCandidate] at h
  | cons x rest ih =>
    intro a h
    by_cases hrest : rest.any p
    · exact ih a (by simpa [specCandidate, hrest] using h)
    · by_cases hx : p x
      · simp only [specCandidate, hrest, if_false, hx, if_true] at h
        have hmem : a ∈ rest := by
          cases rest with
          | nil => simp at h
          | cons b t => simp_all [List.head?]
        have : ¬ (p a = true) := by
          intro hpa
          have : rest.any p = true := List.any_eq_true.mpr ⟨a, hmem, hpa⟩
          simp [this] at hrest
        simpa using this
      · simp only [specCandidate, hrest, if_false, hx, if_true] at h
        cases h
        simpa using hx

theorem candStep_fold_eq (p : Address → Bool) :
    ∀ (l : List Address) (c0 : Option Address),
    l.foldl (candStep p) c0
      = if l.any p then specCandidate p l
        else match c0 with
          | some a => some a
          | none => specCandidate p l := by
  intro l
  induction l with
  | nil => intro c0; cases c0 <;> simp [specCandidate]
  | cons a rest ih =>
    intro c0
    by_cases hpa : p a
    · have hstep : candStep p c0 a = none := by simp [candStep, hpa]
      rw [List.foldl_cons, hstep, ih]
      by_cases hrest : rest.any p
      · simp [List.any_cons, hpa, hrest, specCandidate]
      · simp [List.any_cons, hpa, hrest, specCandidate,
          specCandidate_of_not_any p rest (by simpa using hrest)]
    · have hstep : candStep p c0 a = (if c0.isNone then some a else c0) := by
        simp [candStep, hpa]
      rw [List.foldl_cons, hstep, ih]
      by_cases hrest : rest.any p
      · simp [List.any_cons, hpa, hrest, specCandidate]
      · cases c0 <;>
          simp [List.any_cons, hpa, hrest, specCandidate]

theorem classify_foldl_slot (utxos : List UTXO) :
    ∀ (l : List Address) (st : UUState) (b : Bool),
    (l.foldl (classifyStep utxos) st).slot b
      = (l.filter (fun a => a.change = b)).foldl (candStep (isUsedBy utxos)) (st.slot b) := by
  intro l
  induction l with
  | nil => intro st b; rfl
  | cons a rest ih =>
    intro st b
    rw [List.foldl_cons, ih, List.filter_cons]
    by_cases hb : a.change = b
    · have hslot : (classifyStep utxos st a).slot b = candStep (isUsedBy utxos) (st.slot b) a := by
        by_cases hu : isUsedBy utxos a <;>
          cases hcb : a.change <;>
            simp_all [classifyStep, candStep, UUState.slot]
      simp [hb, hslot]
    · have hslot : (classifyStep utxos st a).slot b = st.slot b := by
        by_cases hu : isUsedBy utxos a <;>
          cases hcb : a.change <;> cases b <;>
            simp_all [classifyStep, UUState.slot]
      simp [hb, hslot]

theorem classify_foldl_used (utxos : List UTXO) :
    ∀ (l : List Address) (st : UUState),
    (l.foldl (classifyStep utxos) st).usedAddresses
      = st.usedAddresses ++ l.filter (isUsedBy utxos) := by
  intro l
  induction l with
  | nil => intro st; simp
  | cons a rest ih =>
    intro st
    rw [List.foldl_cons, ih, List.filter_cons]
    by_cases hu : isUsedBy utxos a <;>
      cases hcb : a.change <;>
        simp_all [classifyStep]

theorem isUsedBy_false_iff (utxos : List UTXO) (a : Address) :
    isUsedBy utxos a = false ↔ ∀ u ∈ utxos, ¬ (a.addr = u.address) := by
  rw [← Bool.not_eq_true]
  simp [isUsedBy, List.find?_isSome]

theorem isUsedBy_true_iff (utxos : List UTXO) (a : Address) :
    isUsedBy utxos a = true ↔ ∃ u ∈ utxos, a.addr = u.address := by
  simp [isUsedBy, List.find?_isSome]

theorem classifyUsedUnused_slot (l : List Address) (utxos : List UTXO) (b : Bool) :
    (classifyUsedUnused l utxos).slot b
      = match specCandidate (isUsedBy utxos) (l.filter (fun a => a.change = b)) with
        | some a => some a
        | none => l.get? 0 := by
  have hinit : (UUState.mk [] none none).slot b = none := by cases b <;> rfl
  have hfold : (l.foldl (classifyStep utxos) ⟨[], none, none⟩).slot b
      = specCandidate (isUsedBy utxos) (l.filter (fun a => a.change = b)) := by
    rw [classify_foldl_slot, hinit, candStep_fold_eq]
    split <;> rfl
  cases b with
  | false =>
    have h : (l.foldl (classifyStep utxos) ⟨[], none, none⟩).nonChange
        = specCandidate (isUsedBy utxos) (l.filter (fun a => a.change = false)) := by
      simpa [UUState.slot] using hfold
    show (match (l.foldl (classifyStep utxos) ⟨[], none, none⟩).nonChange with
          | some a => some a
          | none => l.get? 0) = _
    rw [h]
  | true =>
    have h : (l.foldl (classifyStep utxos) ⟨[], none, none⟩).change
        = specCandidate (isUsedBy utxos) (l.filter (fun a => a.change = true)) := by
      simpa [UUState.slot] using hfold
    show (match (l.foldl (classifyStep utxos) ⟨[], none, none⟩).change with
          | some a => some a
          | none => l.get? 0) = _
    rw [h]

theorem classifyUsedUnused_used (l : List Address) (utxos : List UTXO) :
    (classifyUsedUnused l utxos).usedAddresses = l.filter (isUsedBy utxos) := by
  simpa [classifyUsedUnused] using classify_foldl_used utxos l ⟨[], none, none⟩

theorem getAddressList_length (addrOf : Bool → Nat → String) (basePath : String) (n : Nat) :
    (getAddressList addrOf basePath n).length = n + n := by
  simp [getAddressList, getAddresses, getLedgerAddresses]

/-! ### Concrete instances used by witnesses and counterexamples -/

/-- A concrete derivation function: change addresses `c0, c1, ...`, non-change
addresses `n0, n1, ...`. -/
def exAddrOf : Bool → Nat → String :=
  fun change i => (if change then "c" else "n") ++ toString i

/-- A UTXO set funding the change addresses of index 0 and 2 only. -/
def exUtxosC5 : List UTXO :=
  [{ txid := "t1", vout := 0, amount := 1, address := "c0" },
   { txid := "t2", vout := 0, amount := 1, address := "c2" }]

/-- C5: the claim as stated is false on the code.  With three change-branch
addresses where index 0 and 2 are used and index 1 is unused, the loop records
`c1` as the change branch's candidate after the first used address `c0`, but
the later used address `c2` clears it again (`unusedAddress[key] = null` runs
for every used address, not only the first), so the function falls back to
`addressList[0]` — the used address `c0` — instead of keeping `c1`. -/
theorem c5_counterexample :
    (classifyUsedUnused (getAddressList exAddrOf "m/" 3) exUtxosC5).unusedChange
        = some { addr := "c0", derivationPath := "m/1/0", index := 0, change := true } ∧
    isUsedBy exUtxosC5 { addr := "c0", derivationPath := "m/1/0", index := 0, change := true } = true ∧
    isUsedBy exUtxosC5 { addr := "c1", derivationPath := "m/1/1", index := 1, change := true } = false := by
  refine ⟨?_, by decide, by decide⟩
  rfl

/-- C5 (amended): addresses are processed in list order; an address referenced
by any UTXO is marked used, and every used address of a branch — not only the
first — clears that branch's previously recorded first-unused candidate, while
an address with no UTXO is recorded only when no candidate is recorded yet.
Consequently the surviving candidate of a branch is the first unused address
after the branch's last used address (the branch's first address when the
branch has no used address), with the `addressList[0]` fallback when no
candidate survives. -/
theorem c5_every_used_address_clears_candidate
    (addressList : List Address) (utxos : List UTXO) (b : Bool) :
    (classifyUsedUnused addressList utxos).slot b
      = (match specCandidate (isUsedBy utxos) (addressList.filter (fun a => a.change = b)) with
         | some a => some a
         | none => addressList.get? 0) ∧
    (classifyUsedUnused addressList utxos).usedAddresses
      = addressList.filter (isUsedBy utxos) :=
  ⟨classifyUsedUnused_slot addressList utxos b, classifyUsedUnused_used addressList utxos⟩

/-- C6: the claim quantifies over every batch size, but with batch size `0`
the address list is empty, no fallback element `addressList[0]` exists, and
both entries of the returned pair are `undefined` — not non-null. -/
theorem c6_counterexample :
    (getUsedUnusedAddresses exAddrOf "m/" (fun _ => []) 0).unusedChange = none ∧
    (getUsedUnusedAddresses exAddrOf "m/" (fun _ => []) 0).unusedNonChange = none := by
  exact ⟨rfl, rfl⟩

/-- C6 (amended): for every positive batch size and UTXO set, each entry of
the unused pair is non-null and either has no UTXO attributed to it in the
scanned set or equals index 0 of the full address list, and every address
classified used has at least one UTXO attributed to it. -/
theorem c6_unused_pair_invariant (addrOf : Bool → Nat → String) (basePath : String)
    (getUnspent : List Address → List UTXO) (n : Nat) (hn : 1 ≤ n) (b : Bool) :
    (∃ a, (getUsedUnusedAddresses addrOf basePath getUnspent n).slot b = some a ∧
        ((∀ u ∈ getUnspent (getAddressList addrOf basePath n), ¬ (a.addr = u.address)) ∨
          (getAddressList addrOf basePath n).get? 0 = some a)) ∧
    (∀ a ∈ (getUsedUnusedAddresses addrOf basePath getUnspent n).usedAddresses,
        ∃ u ∈ getUnspent (getAddressList addrOf basePath n), a.addr = u.address) := by
  constructor
  · have hslot := classifyUsedUnused_slot (getAddressList addrOf basePath n)
      (getUnspent (getAddressList addrOf basePath n)) b
    rcases hspec : specCandidate
        (isUsedBy (getUnspent (getAddressList addrOf basePath n)))
        ((getAddressList addrOf basePath n).filter (fun a => a.change = b)) with _ | a
    · have hlen : 0 < (getAddressList addrOf basePath n).length := by
        rw [getAddressList_length]; omega
      refine ⟨(getAddressList addrOf basePath n).get ⟨0, hlen⟩, ?_, Or.inr ?_⟩
      · rw [show (getUsedUnusedAddresses addrOf basePath getUnspent n)
              = classifyUsedUnused (getAddressList addrOf basePath n)
                  (getUnspent (getAddressList addrOf basePath n)) from rfl, hslot, hspec]
        simp [List.get?_eq_getElem?, List.getElem?_eq_getElem hlen]
      · simp [List.get?_eq_getElem?, List.getElem?_eq_getElem hlen]
    · refine ⟨a, ?_, Or.inl ?_⟩
      · rw [show (getUsedUnusedAddresses addrOf basePath getUnspent n)
              = classifyUsedUnused (getAddressList addrOf basePath n)
                  (getUnspent (getAddressList addrOf basePath n)) from rfl, hslot, hspec]
      · exact (isUsedBy_false_iff _ _).mp (specCandidate_unused _ _ _ hspec)
  · intro a ha
    have := classifyUsedUnused_used (getAddressList addrOf basePath n)
      (getUnspent (getAddressList addrOf basePath n))
    rw [show (getUsedUnusedAddresses addrOf basePath getUnspent n)
          = classifyUsedUnused (getAddressList addrOf basePath n)
              (getUnspent (getAddressList addrOf basePath n)) from rfl, this] at ha
    exact (isUsedBy_true_iff _ _).mp (List.mem_filter.mp ha).2

/-- Instantiation of the C6 invariant at batch size 1 with an empty UTXO set. -/
theorem c6_witness :
    (∃ a, (getUsedUnusedAddresses exAddrOf "m/" (fun _ => []) 1).slot true = some a ∧
        ((∀ u ∈ (fun _ => ([] : List UTXO)) (getAddressList exAddrOf "m/" 1),
            ¬ (a.addr = u.address)) ∨
          (getAddressList exAddrOf "m/" 1).get? 0 = some a)) ∧
    (∀ a ∈ (getUsedUnusedAddresses exAddrOf "m/" (fun _ => []) 1).usedAddresses,
        ∃ u ∈ (fun _ => ([] : List UTXO)) (getAddressList exAddrOf "m/" 1),
          a.addr = u.address) :=
  c6_unused_pair_invariant exAddrOf "m/" (fun _ => []) 1 (by decide) true

/-! ### C8: unsupported address formats -/

/-- C8: the claim as stated is false on the code.  The constructor performs no
validation: with `addressType = "foo"` it succeeds, interpolating `undefined`
into the derivation-path prefix, and `getAddressFromPublicKey` falls through
its `if`/`else if` chain and returns `undefined` — no error of any kind is
raised. -/
theorem c8_counterexample :
    mkWallet "foo" 0
      = { addressType := "foo", derivationPath := "undefined'/0'/0'/" } ∧
    getAddressFromPublicKey "foo" "pk" = none := by
  exact ⟨rfl, rfl⟩

/-- C8 (amended): for every addressFormat outside {legacy, p2sh-segwit,
bech32}, constructing the wallet does not fail — it produces a configuration
whose derivation-path prefix contains the string `undefined` — and
`getAddressFromPublicKey` returns `undefined` (no address, no thrown
`UnsupportedAddressFormat`). -/
theorem c8_no_validation (fmt : String) (coinType : Nat) (publicKey : String)
    (h1 : fmt ≠ "legacy") (h2 : fmt ≠ "p2sh-segwit") (h3 : fmt ≠ "bech32") :
    mkWallet fmt coinType
      = { addressType := fmt,
          derivationPath := "undefined'/" ++ toString coinType ++ "'/0'/" } ∧
    getAddressFromPublicKey fmt publicKey = none := by
  constructor
  · simp [mkWallet, constructorDerivationPath, ADDRESS_PREFIX, interpolate, h1, h2, h3]
  · simp [getAddressFromPublicKey, h1, h2, h3]

/-- Instantiation of `c8_no_validation` at the format string `foo`. -/
theorem c8_witness :
    mkWallet "foo" 7
      = { addressType := "foo", derivationPath := "undefined'/7'/0'/" } ∧
    getAddressFromPublicKey "foo" "pubkey" = none :=
  c8_no_validation "foo" 7 "pubkey" (by decide) (by decide) (by decide)

/-! ### C10: the fee-per-byte argument -/

/-- C10: `_buildTransaction` never forwards its `feePerByte` parameter (line
337 calls `getInputsForAmount(outputs)` with the fee argument omitted), so its
result does not depend on it; and inside `getInputsForAmount` a caller-supplied
fee rate of `0` is falsy, so it is replaced by the provider's rate exactly as
an absent one is. -/
theorem c10_fee_rate_ignored (env : Env) (outputs : List Payment)
    (data : Option MetaData) (feePerByte : Option Int) (amount : JsAmount)
    (n : Nat) (providerRate : Int) :
    _buildTransaction env outputs data feePerByte
        = _buildTransaction env outputs data none ∧
    getInputsForAmount env amount (some 0) n = getInputsForAmount env amount none n ∧
    effectiveFeeRate none providerRate = providerRate ∧
    effectiveFeeRate (some 0) providerRate = providerRate := by
  refine ⟨rfl, ?_, rfl, ?_⟩ <;> simp [getInputsForAmount, effectiveFeeRate]

/-! ### C1 and C3: the selection target and the retry policy -/

/-- A selector that always fails, reporting a fee estimate of 10. -/
def exSelFail : List SelUTXO → List CSOutput → Int → CSResult :=
  fun _ _ _ => { inputs := none, outputs := none, fee := 10 }

/-- A concrete environment whose selector always fails. -/
def exEnvFail : Env :=
  { getUnspent := fun _ => []
    providerFeePerByte := 3
    rawTx := fun s => "raw" ++ s
    sel := exSelFail
    addrOf := exAddrOf
    basePath := "m/"
    addressType := "bech32" }

/-- C1: the claim is the code's intent but not its behavior.  Line 337 passes
the raw `outputs` array to `getInputsForAmount`, whose `Number(amount)`
coercion turns any non-empty payment array into `NaN` — never the numeric sum
of the requested values — so, for the single payment of value 100, the target
handed to the Coin Selector is `NaN` (not 100), both selection attempts fail
on it, and the whole build throws `NOT_ENOUGHT_BALANCE`. -/
theorem c1_selection_target_is_nan_not_sum :
    jsToNumber (JsAmount.arr [{ dest := "dest", value := 100 }]) = JsNum.nan ∧
    sumPayments [{ dest := "dest", value := 100 }] = 100 ∧
    JsNum.nan ≠ JsNum.int (sumPayments [{ dest := "dest", value := 100 }]) ∧
    _buildTransaction exEnvFail [{ dest := "dest", value := 100 }] none none
      = .error "NOT_ENOUGHT_BALANCE" := by
  refine ⟨rfl, by decide, by decide, ?_⟩
  rfl

/-- C3: when the first selection attempt returns no inputs,
`getInputsForAmount` retries exactly once with the adjusted target
`BigNumber(amount).minus(result.fee)` — the original target minus the first
attempt's fee estimate — at the same fee rate, and returns that retry's result
when it has inputs, otherwise throws `NOT_ENOUGHT_BALANCE`; no further
attempt exists. -/
theorem c3_single_retry_then_insufficient (env : Env) (amount : JsAmount)
    (feePerByte : Option Int) (n : Nat) (us : List SelUTXO)
    (hus : updatedUtxos (getAddressList env.addrOf env.basePath n)
        (env.getUnspent (getAddressList env.addrOf env.basePath n)) = .ok us)
    (hfail : (getInputs env.sel us (jsToNumber amount)
        (effectiveFeeRate feePerByte env.providerFeePerByte)).inputs = none) :
    getInputsForAmount env amount feePerByte n =
      (let rate := effectiveFeeRate feePerByte env.providerFeePerByte
       let retry := getInputs env.sel us
          ((bigNumberOf amount).sub
            (getInputs env.sel us (jsToNumber amount) rate).fee) rate
       if retry.inputs.isSome then Except.ok retry
       else Except.error "NOT_ENOUGHT_BALANCE") := by
  unfold getInputsForAmount
  dsimp only
  rw [hus]
  simp [hfail]

/-- Instantiation of the C3 retry policy: with the always-failing selector
both attempts fail and the call throws `NOT_ENOUGHT_BALANCE`. -/
theorem c3_witness :
    getInputsForAmount exEnvFail (.num (.int 100)) none 1
      = .error "NOT_ENOUGHT_BALANCE" := by
  have h := c3_single_retry_then_insufficient exEnvFail (.num (.int 100)) none 1 [] rfl rfl
  simpa using h

/-! ### C4: change extraction and the selection invariant -/

/-- A concrete selected input of value 100. -/
def exU : SelUTXO :=
  { txid := "t1", vout := 0, amount := 1, address := "x", value := 100,
    derivationPath := "m/0/0" }

/-- A selector that always succeeds, choosing `exU` and appending a change
output of value 30 (fee 5) to the requested outputs. -/
def exSelOk : List SelUTXO → List CSOutput → Int → CSResult :=
  fun _ reqs _ =>
    { inputs := some [exU]
      outputs := some (reqs ++ [{ id := none, value := .int 30 }])
      fee := 5 }

/-- The integer value carried by the `change` slot (`0` when absent). -/
def changeObjValue : JsVal → Int
  | .obj o => match o.value with | .nan => 0 | .int v => v
  | _ => 0

/-- C4: the claim as stated is false on the code.  The `change` field of a
successful `getInputs` result is the whole first non-`main` output object, not
its numeric `value`: the source's unwrapping branch is guarded by
`change.length`, a property a `coinselect` output object never has. -/
theorem c4_counterexample :
    (getInputs exSelOk [] (.int 100) 2).change = .obj { id := none, value := .int 30 } ∧
    (getInputs exSelOk [] (.int 100) 2).change ≠ .num (.int 30) := by
  exact ⟨rfl, by decide⟩

/-- C4 (amended): for every successful selection whose collaborator result
echoes the synthetic `main` request and appends at most one id-less change
output while balancing `sum(inputs) = sum(outputs) + fee`, the `change` field
is the first non-`main` output OBJECT (or `undefined` when there is none), and
the invariant `sum(inputs.value) = targetAmount + fee + change.value` holds
with the change value read as 0 when absent. -/
theorem c4_change_object_and_invariant
    (sel : List SelUTXO → List CSOutput → Int → CSResult)
    (us ins : List SelUTXO) (A rate : Int) (rest : List CSOutput)
    (hins : (sel us [{ id := some "main", value := .int A }] rate).inputs = some ins)
    (houts : (sel us [{ id := some "main", value := .int A }] rate).outputs
        = some ({ id := some "main", value := .int A } :: rest))
    (hsum : sumSel ins
        = A + sumOutsInt rest + (sel us [{ id := some "main", value := .int A }] rate).fee) :
    ((rest = []) →
      (getInputs sel us (.int A) rate).change = .undef ∧
      sumSel ins = A + (getInputs sel us (.int A) rate).fee
        + changeObjValue (getInputs sel us (.int A) rate).change) ∧
    (∀ v : Int, rest = [{ id := none, value := JsNum.int v }] →
      (getInputs sel us (.int A) rate).change = .obj { id := none, value := .int v } ∧
      sumSel ins = A + (getInputs sel us (.int A) rate).fee
        + changeObjValue (getInputs sel us (.int A) rate).change) := by
  constructor
  · rintro rfl
    simp only [sumOutsInt, List.map_nil, List.sum_nil, add_zero] at hsum
    simp only [getInputs, hins, houts]
    simp [changeObjValue, hsum]
  · rintro v rfl
    simp only [sumOutsInt, List.map_cons, List.sum_cons, List.map_nil,
      List.sum_nil, add_zero] at hsum
    simp only [getInputs, hins, houts]
    constructor
    · simp
    · simp [changeObjValue]
      omega

/-- Instantiation of the amended C4 at the concrete cooperative selector:
inputs of value 100, target 65, fee 5, change object of value 30. -/
theorem c4_witness :
    (getInputs exSelOk [exU] (.int 65) 2).change = .obj { id := none, value := .int 30 } ∧
    sumSel [exU] = 65 + (getInputs exSelOk [exU] (.int 65) 2).fee
      + changeObjValue (getInputs exSelOk [exU] (.int 65) 2).change :=
  (c4_change_object_and_invariant exSelOk [exU] [exU] 65 2
      [{ id := none, value := JsNum.int 30 }] rfl rfl (by decide)).2 30 rfl

/-! ### C2: the assembled output list and what the signer receives -/

/-- A concrete environment whose selector always succeeds with a change
output (`exSelOk`) and whose provider returns no scanned UTXOs. -/
def exEnvOk : Env :=
  { getUnspent := fun _ => []
    providerFeePerByte := 3
    rawTx := fun s => "raw" ++ s
    sel := exSelOk
    addrOf := exAddrOf
    basePath := "m/"
    addressType := "bech32" }

/-- C2: the claim is the code's intent but not its behavior.  With one payment,
metadata and a non-zero change, the `ledgerOutputs` array the source builds
holds only the metadata and change outputs — `ledgerOutputs.concat(...)`
returns a fresh array that is discarded, so no payment output ever joins it —
and the value serialized for the signer is `{ outputs }`, the raw request
list, not the assembled array. -/
theorem c2_payment_outputs_dropped :
    (assembleLedgerOutputs [{ dest := "dest", value := 100 }]
        (some { eventName := "swap" }) .nan
        (.obj { id := none, value := .int 30 })
        { addr := "c0", derivationPath := "m/1/0", index := 0, change := true }).map LOut.script
      = [.embedScript "J_swap",
         .outScript (.addrObj { addr := "c0", derivationPath := "m/1/0", index := 0, change := true })] ∧
    Script.outScript (.str "dest")
      ∉ ((assembleLedgerOutputs [{ dest := "dest", value := 100 }]
        (some { eventName := "swap" }) .nan
        (.obj { id := none, value := .int 30 })
        { addr := "c0", derivationPath := "m/1/0", index := 0, change := true }).map LOut.script) ∧
    _buildTransaction exEnvOk [{ dest := "dest", value := 100 }]
        (some { eventName := "swap" }) none
      = .ok { inputs := [({ hex := "rawt1" }, 0)]
              paths := ["m/0/0"]
              changePath := "m/1/0"
              outputsHex := .paymentsArg [{ dest := "dest", value := 100 }]
              segwitSupport := true
              additionals := some ["bech32"] } := by
  refine ⟨rfl, by decide, ?_⟩
  rfl

/-! ### C7: the `getWalletAddress` scan -/

theorem getAddresses_append (addrOf : Bool → Nat → String) (basePath : String)
    (index a b : Nat) (c : Bool) :
    getAddresses addrOf basePath index (a + b) c
      = getAddresses addrOf basePath index a c
        ++ getAddresses addrOf basePath (index + a) b c := by
  unfold getAddresses getLedgerAddresses
  rw [← List.map_append]
  congr 1
  have h := List.range'_append index a b 1
  simp only [one_mul] at h
  rw [Nat.add_comm a b, ← h]

theorem gwAux_change_phase (addrOf : Bool → Nat → String) (basePath target : String)
    (maxA perCall : Nat) (hp : 0 < perCall) :
    ∀ (w index fuel : Nat), maxA = index + w * perCall → w + 1 ≤ fuel →
    gwAux addrOf basePath target maxA perCall fuel index true
      = match (getAddresses addrOf basePath index (w * perCall) true).find?
          (fun a => a.addr = target) with
        | some a => .found a
        | none => .missing := by
  intro w
  induction w with
  | zero =>
    intro index fuel hmax hfuel
    obtain ⟨f, rfl⟩ : ∃ f, fuel = f + 1 := ⟨fuel - 1, by omega⟩
    simp only [gwAux]
    rw [if_neg (by omega)]
    simp [getAddresses, getLedgerAddresses]
  | succ w ih =>
    intro index fuel hmax hfuel
    obtain ⟨f, rfl⟩ : ∃ f, fuel = f + 1 := ⟨fuel - 1, by omega⟩
    have hle : perCall ≤ (w + 1) * perCall := Nat.le_mul_of_pos_left perCall (Nat.succ_pos w)
    have hidx : index < maxA := by omega
    have hsplit : getAddresses addrOf basePath index ((w + 1) * perCall) true
        = getAddresses addrOf basePath index perCall true
          ++ getAddresses addrOf basePath (index + perCall) (w * perCall) true := by
      rw [show (w + 1) * perCall = perCall + w * perCall by ring]
      exact getAddresses_append addrOf basePath index perCall (w * perCall) true
    have hmax' : maxA = index + perCall + w * perCall := by rw [hmax]; ring
    simp only [gwAux]
    rw [if_pos hidx, hsplit, List.find?_append]
    cases hfind : (getAddresses addrOf basePath index perCall true).find?
        (fun a => a.addr = target) with
    | some a => simp [hfind]
    | none =>
      simp only [hfind, Option.none_or]
      rw [if_neg (by simp)]
      exact ih (index + perCall) f (by omega) (by omega)

theorem gwAux_nonchange_phase (addrOf : Bool → Nat → String) (basePath target : String)
    (maxA perCall : Nat) (hp : 0 < perCall) (hd : perCall ∣ maxA) :
    ∀ (w index fuel : Nat), maxA = index + (w + 1) * perCall →
      (w + 1) + (maxA / perCall + 1) ≤ fuel →
    gwAux addrOf basePath target maxA perCall fuel index false
      = match (getAddresses addrOf basePath index ((w + 1) * perCall) false).find?
          (fun a => a.addr = target) with
        | some a => .found a
        | none =>
          match (getAddresses addrOf basePath 0 maxA true).find?
              (fun a => a.addr = target) with
          | some a => .found a
          | none => .missing := by
  intro w
  induction w with
  | zero =>
    intro index fuel hmax hfuel
    have hf1 : 1 ≤ fuel := by
      generalize maxA / perCall = q at hfuel
      omega
    obtain ⟨f, rfl⟩ : ∃ f, fuel = f + 1 := ⟨fuel - 1, by omega⟩
    have hmax' : maxA = index + perCall := by rw [hmax]; ring
    have hidx : index < maxA := by omega
    simp only [gwAux]
    rw [if_pos hidx]
    rw [show (0 + 1) * perCall = perCall by ring]
    cases hfind : (getAddresses addrOf basePath index perCall false).find?
        (fun a => a.addr = target) with
    | some a => simp [hfind]
    | none =>
      simp only [hfind]
      rw [if_pos (show index + perCall = maxA ∧ True from ⟨by omega, trivial⟩)]
      have hmm : maxA = 0 + (maxA / perCall) * perCall := by
        rw [Nat.zero_add, Nat.div_mul_cancel hd]
      have hfq : maxA / perCall + 1 ≤ f := by
        generalize maxA / perCall = q at hfuel
        omega
      rw [gwAux_change_phase addrOf basePath target maxA perCall hp
        (maxA / perCall) 0 f hmm hfq]
      rw [show maxA / perCall * perCall = maxA from Nat.div_mul_cancel hd]
  | succ w ih =>
    intro index fuel hmax hfuel
    have hf1 : 1 ≤ fuel := by
      generalize maxA / perCall = q at hfuel
      omega
    obtain ⟨f, rfl⟩ : ∃ f, fuel = f + 1 := ⟨fuel - 1, by omega⟩
    have hle : perCall ≤ (w + 1) * perCall := Nat.le_mul_of_pos_left perCall (Nat.succ_pos w)
    have hmax' : maxA = index + perCall + (w + 1) * perCall := by rw [hmax]; ring
    have hidx : index < maxA := by omega
    have hsplit : getAddresses addrOf basePath index ((w + 1 + 1) * perCall) false
        = getAddresses addrOf basePath index perCall false
          ++ getAddresses addrOf basePath (index + perCall) ((w + 1) * perCall) false := by
      rw [show (w + 1 + 1) * perCall = perCall + (w + 1) * perCall by ring]
      exact getAddresses_append addrOf basePath index perCall ((w + 1) * perCall) false
    simp only [gwAux]
    rw [if_pos hidx, hsplit, List.find?_append]
    cases hfind : (getAddresses addrOf basePath index perCall false).find?
        (fun a => a.addr = target) with
    | some a => simp [hfind]
    | none =>
      simp only [hfind, Option.none_or]
      rw [if_neg (show ¬ (index + perCall = maxA ∧ True) from by
        intro hcon
        have h1 := hcon.1
        omega)]
      refine ih (index + perCall) f (by omega) ?_
      generalize maxA / perCall = q at hfuel ⊢
      omega

/-- C7: the claim as stated is false on the code.  The branch switch fires
only when the index lands exactly on `maxAddresses`; with `maxAddresses = 1`
and `addressesPerCall = 2` the index jumps from 0 to 2, the equality test
fails, the loop exits and `ADDRESS_MISSING_IN_LEDGER` is thrown without the
change branch ever being scanned — even though the target is the change
address of index 0, well inside `maxAddresses`. -/
theorem c7_counterexample :
    getWalletAddress exAddrOf "m/" "c0" 1 2 = .missing ∧
    (getAddresses exAddrOf "m/" 0 1 true).find? (fun a => a.addr = "c0")
      = some { addr := "c0", derivationPath := "m/1/0", index := 0, change := true } := by
  exact ⟨rfl, rfl⟩

/-- C7 (amended): whenever `addressesPerCall` is positive and divides
`maxAddresses`, `getWalletAddress` scans the non-change branch
`[0, maxAddresses)` and then the change branch `[0, maxAddresses)` in
batch-sized windows, returns the first derived address equal to the target,
and throws `ADDRESS_MISSING_IN_LEDGER` only after both branches are
exhausted. -/
theorem c7_scan_both_branches (addrOf : Bool → Nat → String) (basePath target : String)
    (maxAddresses addressesPerCall : Nat) (hp : 0 < addressesPerCall)
    (hd : addressesPerCall ∣ maxAddresses) :
    getWalletAddress addrOf basePath target maxAddresses addressesPerCall
      = match (getAddresses addrOf basePath 0 maxAddresses false
            ++ getAddresses addrOf basePath 0 maxAddresses true).find?
            (fun a => a.addr = target) with
        | some a => GWResult.found a
        | none => GWResult.missing := by
  rcases Nat.eq_zero_or_pos maxAddresses with h0 | hpos
  · subst h0
    simp [getWalletAddress, gwAux, getAddresses, getLedgerAddresses]
  · have hple : addressesPerCall ≤ maxAddresses := Nat.le_of_dvd hpos hd
    have hq1 : 1 ≤ maxAddresses / addressesPerCall := (Nat.one_le_div_iff hp).mpr hple
    have hqm : maxAddresses / addressesPerCall * addressesPerCall = maxAddresses :=
      Nat.div_mul_cancel hd
    have hds : maxAddresses / addressesPerCall ≤ maxAddresses := Nat.div_le_self _ _
    obtain ⟨q, hqdef⟩ : ∃ q, maxAddresses / addressesPerCall = q := ⟨_, rfl⟩
    rw [hqdef] at hq1 hqm hds
    obtain ⟨w, rfl⟩ : ∃ w, q = w + 1 := ⟨q - 1, by omega⟩
    have hmax : maxAddresses = 0 + (w + 1) * addressesPerCall := by
      rw [Nat.zero_add]
      exact hqm.symm
    have hfuel : (w + 1) + (maxAddresses / addressesPerCall + 1)
        ≤ 2 * maxAddresses + 2 := by
      rw [hqdef]
      omega
    rw [getWalletAddress, gwAux_nonchange_phase addrOf basePath target maxAddresses
      addressesPerCall hp hd w 0 (2 * maxAddresses + 2) hmax hfuel]
    rw [show (w + 1) * addressesPerCall = maxAddresses from hqm]
    rw [List.find?_append]
    cases h1 : (getAddresses addrOf basePath 0 maxAddresses false).find?
        (fun a => a.addr = target) with
    | some a => simp
    | none => simp [Option.none_or]

/-- Instantiation of the amended C7: with two addresses per branch scanned in
windows of one, the target `n1` on the non-change branch is found. -/
theorem c7_witness :
    getWalletAddress exAddrOf "m/" "n1" 2 1
      = .found { addr := "n1", derivationPath := "m/0/1", index := 1, change := false } := by
  rw [c7_scan_both_branches exAddrOf "m/" "n1" 2 1 (by decide) (by decide)]
  rfl

/-! ### C9: `getAmountBuffer` is the 8-byte little-endian encoding -/

theorem hexLEAux_congr : ∀ (f n g : Nat), n ≤ f → n ≤ g → hexLEAux f n = hexLEAux g n := by
  intro f
  induction f with
  | zero =>
    intro n g hf hg
    have : n = 0 := by omega
    subst this
    cases g <;> rfl
  | succ f ih =>
    intro n g hf hg
    cases n with
    | zero => cases g <;> rfl
    | succ m =>
      cases g with
      | zero => omega
      | succ g' =>
        have hdiv : (m + 1) / 16 < m + 1 := Nat.div_lt_self (Nat.succ_pos m) (by norm_num)
        simp only [hexLEAux]
        congr 1
        exact ih ((m + 1) / 16) g' (by omega) (by omega)

theorem hexDigitsLE_eq (n : Nat) (h : 0 < n) :
    hexDigitsLE n = n % 16 :: hexDigitsLE (n / 16) := by
  obtain ⟨m, rfl⟩ : ∃ m, n = m + 1 := ⟨n - 1, by omega⟩
  have hdiv : (m + 1) / 16 < m + 1 := Nat.div_lt_self (Nat.succ_pos m) (by norm_num)
  show hexLEAux (m + 1) (m + 1) = _
  simp only [hexLEAux]
  congr 1
  exact hexLEAux_congr m ((m + 1) / 16) ((m + 1) / 16) (by omega) (le_refl _)

theorem hexDigitsLE_getD (n : Nat) : ∀ i, (hexDigitsLE n).getD i 0 = n / 16 ^ i % 16 := by
  induction n using Nat.strong_induction_on with
  | _ n ih =>
    intro i
    rcases Nat.eq_zero_or_pos n with rfl | hn
    · simp [hexDigitsLE, hexLEAux]
    · rw [hexDigitsLE_eq n hn]
      cases i with
      | zero => simp
      | succ j =>
        rw [List.getD_cons_succ, ih (n / 16) (Nat.div_lt_self hn (by norm_num)) j,
          Nat.div_div_eq_div_mul, ← pow_succ']

theorem hexDigitsLE_lt (n : Nat) : n < 16 ^ (hexDigitsLE n).length := by
  induction n using Nat.strong_induction_on with
  | _ n ih =>
    rcases Nat.eq_zero_or_pos n with rfl | hn
    · simp [hexDigitsLE, hexLEAux]
    · rw [hexDigitsLE_eq n hn]
      simp only [List.length_cons]
      have h1 := ih (n / 16) (Nat.div_lt_self hn (by norm_num))
      have h4 : 16 * (n / 16 + 1) ≤ 16 * 16 ^ (hexDigitsLE (n / 16)).length :=
        Nat.mul_le_mul_left 16 (Nat.succ_le_of_lt h1)
      have h5 : (16 : Nat) ^ ((hexDigitsLE (n / 16)).length + 1)
          = 16 * 16 ^ (hexDigitsLE (n / 16)).length := pow_succ' 16 _
      omega

theorem hexDigitsLE_length_le : ∀ (k n : Nat), n < 16 ^ k → (hexDigitsLE n).length ≤ k := by
  intro k
  induction k with
  | zero =>
    intro n h
    have : n = 0 := by simpa using h
    subst this
    simp [hexDigitsLE, hexLEAux]
  | succ k ih =>
    intro n h
    rcases Nat.eq_zero_or_pos n with rfl | hn
    · simp [hexDigitsLE, hexLEAux]
    · rw [hexDigitsLE_eq n hn]
      simp only [List.length_cons]
      have hq : n / 16 < 16 ^ k := by
        rw [Nat.div_lt_iff_lt_mul (by norm_num)]
        calc n < 16 ^ (k + 1) := h
          _ = 16 ^ k * 16 := by rw [pow_succ]
      have := ih (n / 16) hq
      omega

theorem toString16_length_pos (n : Nat) : 0 < (toString16 n).length := by
  unfold toString16
  rcases Nat.eq_zero_or_pos n with rfl | hn
  · simp
  · rw [if_neg (by omega), List.length_reverse, hexDigitsLE_eq n hn]
    simp

theorem toString16_lt (n : Nat) : n < 16 ^ (toString16 n).length := by
  unfold toString16
  rcases Nat.eq_zero_or_pos n with rfl | hn
  · simp
  · rw [if_neg (by omega), List.length_reverse]
    exact hexDigitsLE_lt n

theorem toString16_length_le (n k : Nat) (hk : 1 ≤ k) (h : n < 16 ^ k) :
    (toString16 n).length ≤ k := by
  unfold toString16
  rcases Nat.eq_zero_or_pos n with rfl | hn
  · simpa using hk
  · rw [if_neg (by omega), List.length_reverse]
    exact hexDigitsLE_length_le k n h

theorem toString16_getD (n i : Nat) (h : i < (toString16 n).length) :
    (toString16 n).getD i 0 = n / 16 ^ ((toString16 n).length - 1 - i) % 16 := by
  rcases Nat.eq_zero_or_pos n with rfl | hn
  · have h1 : i = 0 := by
      simpa [toString16] using h
    subst h1
    simp [toString16]
  · have hne : ¬ n = 0 := by omega
    have hlist : toString16 n = (hexDigitsLE n).reverse := by
      unfold toString16
      rw [if_neg hne]
    rw [hlist] at h ⊢
    rw [List.length_reverse] at h ⊢
    have h2 : ((hexDigitsLE n).reverse).getD i 0
        = (hexDigitsLE n).getD ((hexDigitsLE n).length - 1 - i) 0 := by
      rw [List.getD_eq_getElem _ 0 (by simpa using h),
        List.getD_eq_getElem _ 0 (by omega)]
      exact List.getElem_reverse _
    rw [h2, hexDigitsLE_getD]

/-- The base-16 digits of `n`, most significant first, padded/truncated to
exactly `k` digits. -/
def beDigits (k n : Nat) : List Nat :=
  (List.range k).map (fun i => n / 16 ^ (k - 1 - i) % 16)

/-- The base-256 bytes of `n`, most significant first, width `k`. -/
def beBytes (k n : Nat) : List Nat :=
  (List.range k).map (fun j => n / 256 ^ (k - 1 - j) % 256)

theorem beDigits_succ (k n : Nat) :
    beDigits (k + 1) n = n / 16 ^ k % 16 :: beDigits k n := by
  unfold beDigits
  rw [List.range_succ_eq_map]
  simp only [List.map_cons, List.map_map]
  congr 1
  apply List.map_congr_left
  intro a _
  simp only [Function.comp_apply]
  rw [show k + 1 - 1 - Nat.succ a = k - 1 - a from by omega]

theorem beBytes_succ (k n : Nat) :
    beBytes (k + 1) n = n / 256 ^ k % 256 :: beBytes k n := by
  unfold beBytes
  rw [List.range_succ_eq_map]
  simp only [List.map_cons, List.map_map]
  congr 1
  apply List.map_congr_left
  intro a _
  simp only [Function.comp_apply]
  rw [show k + 1 - 1 - Nat.succ a = k - 1 - a from by omega]

theorem padHexStart_toString16 (n : Nat) (h : n < 16 ^ 16) :
    padHexStart (toString16 n) 16 = beDigits 16 n := by
  have hL : (toString16 n).length ≤ 16 := toString16_length_le n 16 (by norm_num) h
  have hpos := toString16_length_pos n
  have hlt := toString16_lt n
  have hpad : padHexStart (toString16 n) 16
      = List.replicate (16 - (toString16 n).length) 0 ++ toString16 n := by
    unfold padHexStart
    norm_num
  have hlen : (padHexStart (toString16 n) 16).length = 16 := by
    rw [hpad]
    rw [List.length_append, List.length_replicate]
    omega
  have key : ∀ j, j < 16 →
      (padHexStart (toString16 n) 16).getD j 0 = n / 16 ^ (16 - 1 - j) % 16 := by
    intro j hj
    rw [hpad]
    by_cases hcase : j < 16 - (toString16 n).length
    · rw [List.getD_append _ _ _ j (by
        rw [List.length_replicate]
        omega)]
      rw [List.getD_eq_getElem _ 0 (by
        rw [List.length_replicate]
        omega), List.getElem_replicate]
      have hexp : (toString16 n).length ≤ 16 - 1 - j := by omega
      have hle2 : 16 ^ (toString16 n).length ≤ 16 ^ (16 - 1 - j) :=
        Nat.pow_le_pow_right (by norm_num) hexp
      rw [Nat.div_eq_of_lt (by omega)]
    · rw [List.getD_append_right _ _ _ j (by
        rw [List.length_replicate]
        omega)]
      rw [List.length_replicate]
      have hidx : j - (16 - (toString16 n).length) < (toString16 n).length := by omega
      rw [toString16_getD n _ hidx]
      rw [show (toString16 n).length - 1 - (j - (16 - (toString16 n).length))
            = 16 - 1 - j from by omega]
  apply List.ext_getElem
  · rw [hlen]
    simp [beDigits]
  · intro j h1 h2
    have hj : j < 16 := by
      rw [hlen] at h1
      exact h1
    have h3 := key j hj
    rw [List.getD_eq_getElem _ 0 h1] at h3
    rw [h3]
    simp only [beDigits, List.getElem_map, List.getElem_range]

theorem hexPairsToBytes_beDigits (n : Nat) :
    ∀ m, hexPairsToBytes (beDigits (2 * m) n) = beBytes m n := by
  intro m
  induction m with
  | zero => rfl
  | succ m ih =>
    rw [show 2 * (m + 1) = (2 * m + 1) + 1 from by ring]
    rw [beDigits_succ, beDigits_succ]
    show (16 * (n / 16 ^ (2 * m + 1) % 16) + n / 16 ^ (2 * m) % 16)
        :: hexPairsToBytes (beDigits (2 * m) n) = _
    rw [ih, beBytes_succ]
    congr 1
    have hx : n / 16 ^ (2 * m + 1) = n / 16 ^ (2 * m) / 16 := by
      rw [Nat.div_div_eq_div_mul, ← pow_succ]
    rw [hx]
    have h256 : (256 : Nat) ^ m = 16 ^ (2 * m) := by
      rw [show (256 : Nat) = 16 ^ 2 from by norm_num, ← pow_mul]
    rw [h256]
    omega

theorem reverse_map_range {α : Type} (g : Nat → α) :
    ∀ m, ((List.range m).map g).reverse = (List.range m).map (fun i => g (m - 1 - i)) := by
  intro m
  induction m with
  | zero => rfl
  | succ m ih =>
    conv_lhs => rw [List.range_succ]
    rw [List.map_append, List.reverse_append]
    simp only [List.map_cons, List.map_nil, List.reverse_cons, List.reverse_nil,
      List.nil_append, List.singleton_append]
    rw [ih]
    conv_rhs => rw [List.range_succ_eq_map]
    simp only [List.map_cons, List.map_map]
    congr 1
    apply List.map_congr_left
    intro a _
    simp only [Function.comp_apply]
    rw [show m + 1 - 1 - Nat.succ a = m - 1 - a from by omega]

/-- C9: for every non-negative integer amount below `2^64`, `getAmountBuffer`
returns exactly 8 bytes, the little-endian base-256 encoding of the amount:
byte `i` is `amount / 256^i % 256`. -/
theorem c9_amount_buffer_little_endian (amount : Int) (h0 : 0 ≤ amount)
    (h64 : amount < 2 ^ 64) :
    getAmountBuffer amount
      = (List.range 8).map (fun i => amount.toNat / 256 ^ i % 256) ∧
    (getAmountBuffer amount).length = 8 := by
  have hn : amount.toNat < 16 ^ 16 := by
    have he : (16 : Nat) ^ 16 = 2 ^ 64 := by norm_num
    rw [he]
    exact (Int.toNat_lt h0).mpr (by exact_mod_cast h64)
  have hmain : getAmountBuffer amount
      = (List.range 8).map (fun i => amount.toNat / 256 ^ i % 256) := by
    unfold getAmountBuffer
    rw [if_neg (by omega)]
    rw [padHexStart_toString16 _ hn]
    have hp := hexPairsToBytes_beDigits amount.toNat 8
    rw [show 2 * 8 = 16 from by norm_num] at hp
    rw [hp]
    unfold beBytes
    rw [reverse_map_range]
    apply List.map_congr_left
    intro i hi
    have hi8 : i < 8 := List.mem_range.mp hi
    rw [show 8 - 1 - (8 - 1 - i) = i from by omega]
  exact ⟨hmain, by rw [hmain]; simp⟩

/-- Instantiation of C9 at amount 300 (hex `012c`, little-endian bytes
`2c 01 00 00 00 00 00 00`). -/
theorem c9_witness :
    getAmountBuffer 300 = [44, 1, 0, 0, 0, 0, 0, 0] ∧
    (getAmountBuffer 300).length = 8 := by
  have h := c9_amount_buffer_little_endian 300 (by norm_num) (by norm_num)
  refine ⟨?_, h.2⟩
  rw [h.1]
  rfl
